import Mathlib

/-!
Verification development for the Rusti-DB storage engine and query executor.

The definitions below are a shallow embedding of the Rust sources:
  src/storage/types.rs    (Value / Column / TableSchema / Row / Index)
  src/storage/bitcask.rs  (BitcaskStorage: create_table, insert, scan,
                           create_index, index_lookup, read_row_at_offset)
  src/executor/mod.rs     (QueryExecutor: execute, execute_create_table,
                           execute_insert, execute_select, execute_where,
                           evaluate_expr, eval_expr_to_value, expr_to_value,
                           sql_value_to_value)

Modelling conventions:
* `f64` payloads are abstracted to `Int`: floating-point bit-level semantics
  are out of scope for the shallow embedding; only the variant structure and
  an ordered numeric payload are needed by the properties proved here.
* Rust `HashMap`s become association lists; `HashMap::insert`,
  `entry(..).or_insert(..)` and `get` become `ainsert` / `mapPush` / `alookup`.
* The append-only data file is modelled as the list of records it contains;
  `recSize` gives the exact byte size of each record on disk
  (marker byte + length prefixes + bincode fixint payload sizes), so byte
  offsets are the prefix sums of `recSize`.  An offset "points at the 0xAA
  marker byte of a row record" exactly when `decodeRowAt` succeeds at it.
* Fallible file writes are modelled with an explicit `ioOk : Bool` oracle:
  `ioOk = true` means the underlying write succeeds, `ioOk = false` means it
  fails with an I/O error before any byte reaches the file.
* Serialization of schemas and rows (`bincode::serialize`) is total in the
  model; wall-clock `duration` in `QueryResult` is not modelled.
-/

namespace RustiDB

/-- Column types, from `ColumnType` in src/storage/types.rs. -/
inductive ColumnType where
  | integer
  | text
  | float
deriving DecidableEq, Repr

/-- A column definition, from `Column` in src/storage/types.rs. -/
structure Column where
  name : String
  column_type : ColumnType
deriving DecidableEq, Repr

/-- A single value in a row, from `Value` in src/storage/types.rs.
The `f64` payload of `Float` is abstracted to `Int`. -/
inductive Value where
  | integer (i : Int)
  | text (s : String)
  | float (f : Int)
  | null
deriving DecidableEq, Repr

/-- String form of a value, from `Value::to_string` in src/storage/types.rs.
This is the canonical (lossy) key used by the secondary index. -/
def Value.to_string : Value → String
  | .integer i => toString i
  | .text s => s
  | .float f => toString f
  | .null => "Null"

/-- Type compatibility check, from `Value::matches_type` in
src/storage/types.rs: the variant must agree with the declared type, and
`Null` matches every declared type. -/
def Value.matches_type : Value → ColumnType → Bool
  | .integer _, .integer => true
  | .text _, .text => true
  | .float _, .float => true
  | .null, _ => true
  | _, _ => false

/-- A row of values, from `Row` in src/storage/types.rs. -/
structure Row where
  values : List Value
deriving DecidableEq, Repr

/-- Positional access, from `Row::get` in src/storage/types.rs. -/
def Row.get (r : Row) (index : Nat) : Option Value :=
  r.values.get? index

/-- A table schema, from `TableSchema` in src/storage/types.rs. -/
structure TableSchema where
  name : String
  columns : List Column
deriving DecidableEq, Repr

/-- Helper recursion for `TableSchema.get_column_index`
(`Iterator::position` over the column list). -/
def colIndexAux : List Column → String → Nat → Option Nat
  | [], _, _ => none
  | c :: rest, name, i => if c.name = name then some i else colIndexAux rest name (i + 1)

/-- Column position by name, from `TableSchema::get_column_index`. -/
def TableSchema.get_column_index (s : TableSchema) (name : String) : Option Nat :=
  colIndexAux s.columns name 0

/-- Column by name, from `TableSchema::get_column`. -/
def TableSchema.get_column (s : TableSchema) (name : String) : Option Column :=
  s.columns.find? (fun c => c.name = name)

/-- Validation errors produced by `TableSchema::validate_row`.  The Rust code
returns them as formatted strings; the model carries the same data
structurally: the arity mismatch, or the offending column's name, index,
declared type and actual value. -/
inductive SchemaErr where
  | arityMismatch (got expected : Nat)
  | typeMismatch (column : String) (index : Nat) (expected : ColumnType) (got : Value)
deriving DecidableEq, Repr

/-- Helper recursion for `TableSchema.validate_row`: the enumerated zip loop
over values and columns. -/
def validateAux : List Value → List Column → Nat → Except SchemaErr Unit
  | [], _, _ => .ok ()
  | _, [], _ => .ok ()
  | v :: vs, c :: cs, i =>
    if v.matches_type c.column_type then validateAux vs cs (i + 1)
    else .error (.typeMismatch c.name i c.column_type v)

/-- Row validation, from `TableSchema::validate_row` in src/storage/types.rs:
arity check first, then per-position type compatibility. -/
def TableSchema.validate_row (s : TableSchema) (row : Row) : Except SchemaErr Unit :=
  if row.values.length ≠ s.columns.length then
    .error (.arityMismatch row.values.length s.columns.length)
  else
    validateAux row.values s.columns 0

/-- Association-list lookup, modelling `HashMap::get`. -/
def alookup {α : Type} : List (String × α) → String → Option α
  | [], _ => none
  | (k, v) :: rest, key => if k = key then some v else alookup rest key

/-- Association-list insert-or-replace, modelling `HashMap::insert` and
in-place mutation through `HashMap::get_mut`. -/
def ainsert {α : Type} : List (String × α) → String → α → List (String × α)
  | [], key, v => [(key, v)]
  | (k, w) :: rest, key, v =>
    if k = key then (k, v) :: rest else (k, w) :: ainsert rest key v

/-- Append an offset to the list stored under a key, modelling
`index_map.entry(key).or_insert_with(Vec::new).push(offset)`. -/
def mapPush : List (String × List Nat) → String → Nat → List (String × List Nat)
  | [], key, off => [(key, [off])]
  | (k, l) :: rest, key, off =>
    if k = key then (k, l ++ [off]) :: rest else (k, l) :: mapPush rest key off

/-- A secondary index, from `Index` in src/storage/types.rs: a map from the
canonical string key of a value to the list of log byte offsets of the rows
holding that value. -/
structure Index where
  table_name : String
  column_name : String
  column_index : Nat
  index_map : List (String × List Nat)
deriving DecidableEq, Repr

/-- Fresh empty index, from `Index::new`. -/
def Index.new (table_name column_name : String) (column_index : Nat) : Index :=
  { table_name, column_name, column_index, index_map := [] }

/-- Record an offset under a value's canonical key, from `Index::insert`. -/
def Index.insert (idx : Index) (value : Value) (offset : Nat) : Index :=
  { idx with index_map := mapPush idx.index_map value.to_string offset }

/-- Exact-match lookup, from `Index::lookup`. -/
def Index.lookup (idx : Index) (value : Value) : Option (List Nat) :=
  alookup idx.index_map value.to_string

/-- Offsets stored under a string key, with absence read as the empty list. -/
def idxD (idx : Index) (key : String) : List Nat :=
  (alookup idx.index_map key).getD []

/-- Errors of the storage and executor layer, mirroring the `io::ErrorKind`
values used in src/storage/bitcask.rs and src/executor/mod.rs. -/
inductive DbError where
  | alreadyExists
  | notFound
  | invalidData (e : SchemaErr)
  | ioError
  | corruption
  | invalidInput
deriving DecidableEq, Repr

/-- One record of the append-only data file: a schema record
(marker `0xFF`) or a row record (marker `0xAA`), from the byte formats in
`write_schema` and `write_row` in src/storage/bitcask.rs. -/
inductive Record where
  | schemaRec (schema : TableSchema)
  | rowRec (table : String) (row : Row)
deriving DecidableEq, Repr

/-- Serialized byte length of one value under bincode's fixint encoding:
4-byte enum tag plus the payload (8 bytes for i64/f64, 8-byte length prefix
plus UTF-8 bytes for strings). -/
def valSerLen : Value → Nat
  | .integer _ => 4 + 8
  | .text s => 4 + 8 + s.utf8ByteSize
  | .float _ => 4 + 8
  | .null => 4

/-- Serialized byte length of a row (`bincode::serialize(&row)`). -/
def rowSerLen (r : Row) : Nat :=
  8 + (r.values.map valSerLen).sum

/-- Serialized byte length of a column definition. -/
def colSerLen (c : Column) : Nat :=
  8 + c.name.utf8ByteSize + 4

/-- Serialized byte length of a table schema (`bincode::serialize(&schema)`). -/
def schemaSerLen (s : TableSchema) : Nat :=
  8 + s.name.utf8ByteSize + 8 + (s.columns.map colSerLen).sum

/-- On-disk size of one record: marker byte plus length prefixes plus
payload, exactly the byte counts added to `current_offset` by
`write_schema` and `write_row`. -/
def recSize : Record → Nat
  | .schemaRec s => 1 + 4 + schemaSerLen s
  | .rowRec t r => 1 + 2 + t.utf8ByteSize + 4 + rowSerLen r

/-- Total byte size of a sequence of records. -/
def logSize (log : List Record) : Nat :=
  (log.map recSize).sum

/-- Byte offset at which record `i` of the log begins. -/
def recStart (log : List Record) (i : Nat) : Nat :=
  logSize (log.take i)

/-- Reading a record at its own first byte: a row record (beginning with
the `0xAA` marker) yields its table name and row, a schema record
(beginning with `0xFF`) is not a row. -/
def decodeHead : Record → Option (String × Row)
  | .rowRec t r => some (t, r)
  | .schemaRec _ => none

/-- Decode the record beginning at byte offset `off`: succeeds exactly when
`off` is the first byte (the marker byte) of a row record, returning the
embedded table name and row.  This is the semantics of seeking to `off` and
decoding, as `read_row_at_offset` does. -/
def decodeRowAt : List Record → Nat → Option (String × Row)
  | [], _ => none
  | rec :: rest, off =>
    if off = 0 then decodeHead rec
    else if off < recSize rec then none
    else decodeRowAt rest (off - recSize rec)

/-- The storage engine state, from `BitcaskStorage` in
src/storage/bitcask.rs: the data file contents, the in-memory catalog
(table name to schema and row count) and the per-table indexes. -/
structure Storage where
  log : List Record
  tables : List (String × TableSchema × Nat)
  indexes : List (String × List (String × Index))
  current_offset : Nat
deriving DecidableEq, Repr

/-- State of `BitcaskStorage::new` on a fresh (empty) data file. -/
def Storage.init : Storage :=
  { log := [], tables := [], indexes := [], current_offset := 0 }

/-- Append a schema record, from `BitcaskStorage::write_schema`: on success
the record is appended and `current_offset` advances by
`1 + 4 + schema_bytes.len()`; on a failed write nothing changes.  The
source writes at the shared file cursor without seeking (the file is not
opened in append mode), so this append-to-the-end model describes the file
contents only while the cursor sits at end-of-file; the cursor itself, and
the mid-file writes it can cause after an `index_lookup`, are modelled by
`PhysStorage` and `physStepOp` below. -/
def write_schema (s : Storage) (schema : TableSchema) (ioOk : Bool) :
    Except DbError Unit × Storage :=
  if ioOk then
    (.ok (), { s with
      log := s.log ++ [.schemaRec schema],
      current_offset := s.current_offset + (1 + 4 + schemaSerLen schema) })
  else
    (.error .ioError, s)

/-- Create a table, from `BitcaskStorage::create_table`: duplicate names are
rejected; otherwise the schema is registered in the in-memory catalog FIRST
and only then persisted via `write_schema` (whose failure is propagated with
the catalog already mutated). -/
def create_table (s : Storage) (schema : TableSchema) (ioOk : Bool) :
    Except DbError Unit × Storage :=
  if (alookup s.tables schema.name).isSome then
    (.error .alreadyExists, s)
  else
    let s1 := { s with tables := ainsert s.tables schema.name (schema, 0) }
    write_schema s1 schema ioOk

/-- Append a row record, from `BitcaskStorage::write_row`: on success the
record is appended and `current_offset` advances by
`1 + 2 + table_name.len() + 4 + row_bytes.len()`.  As with `write_schema`,
the source writes at the shared cursor without seeking to end-of-file; the
append model holds while the cursor is at end-of-file, and the physical
cursor (which an `index_lookup` can leave mid-file) is tracked by
`PhysStorage` and `physStepOp`. -/
def write_row (s : Storage) (table_name : String) (row : Row) (ioOk : Bool) :
    Except DbError Unit × Storage :=
  if ioOk then
    (.ok (), { s with
      log := s.log ++ [.rowRec table_name row],
      current_offset := s.current_offset +
        (1 + 2 + table_name.utf8ByteSize + 4 + rowSerLen row) })
  else
    (.error .ioError, s)

/-- Per-index update of the index-maintenance loop in
`BitcaskStorage::insert`: re-resolve the indexed column through the schema
and record the row's value under the new offset (skipping the index when
the column or the position is missing). -/
def indexUpdateFun (schema : TableSchema) (row : Row) (offset : Nat)
    (col_name : String) (index : Index) : Index :=
  match schema.get_column_index col_name with
  | some ci =>
    match row.get ci with
    | some v => index.insert v offset
    | none => index
  | none => index

/-- Update every index registered for a table after a row append, from the
index-maintenance loop in `BitcaskStorage::insert`. -/
def updateTableIndexes (m : List (String × Index)) (schema : TableSchema)
    (row : Row) (offset : Nat) : List (String × Index) :=
  m.map (fun p => (p.1, indexUpdateFun schema row offset p.1 p.2))

/-- Apply `updateTableIndexes` to the entry of one table, if present. -/
def updateIndexes (indexes : List (String × List (String × Index)))
    (table_name : String) (schema : TableSchema) (row : Row) (offset : Nat) :
    List (String × List (String × Index)) :=
  match alookup indexes table_name with
  | none => indexes
  | some m => ainsert indexes table_name (updateTableIndexes m schema row offset)

/-- Insert a row, from `BitcaskStorage::insert`: look up the table, validate
the row against its schema, remember the current offset, append the row
record, update the table's indexes with that offset, increment the row
count, and return the offset.  Every failure path returns before the state
it would have changed is touched. -/
def insert (s : Storage) (table_name : String) (row : Row) (ioOk : Bool) :
    Except DbError Nat × Storage :=
  match alookup s.tables table_name with
  | none => (.error .notFound, s)
  | some (schema, row_count) =>
    match schema.validate_row row with
    | .error e => (.error (.invalidData e), s)
    | .ok () =>
      let row_offset := s.current_offset
      match write_row s table_name row ioOk with
      | (.error e, s1) => (.error e, s1)
      | (.ok (), s1) =>
        let s2 := { s1 with indexes := updateIndexes s1.indexes table_name schema row row_offset }
        let s3 := { s2 with tables := ainsert s2.tables table_name (schema, row_count + 1) }
        (.ok row_offset, s3)

/-- Row-collecting log walk, from the record loop of `BitcaskStorage::scan`:
schema records are skipped, row records are kept exactly when their embedded
table name matches. -/
def scanLog : List Record → String → List Row
  | [], _ => []
  | .schemaRec _ :: rest, t => scanLog rest t
  | .rowRec t' r :: rest, t =>
    if t' = t then r :: scanLog rest t else scanLog rest t

/-- Full table scan, from `BitcaskStorage::scan`.  The model's log is
well-formed by construction, so the corruption branches of the Rust loop
are unreachable and the scan always succeeds. -/
def scan (s : Storage) (table_name : String) : Except DbError (List Row) :=
  .ok (scanLog s.log table_name)

/-- Index construction replay, from the record loop of
`BitcaskStorage::create_index`: walk the log tracking the running byte
offset, and record `(value, row_start_offset)` for every row of the target
table. -/
def buildIndex : List Record → String → Nat → Nat → Index → Index
  | [], _, _, _, idx => idx
  | rec :: rest, t, ci, off, idx =>
    match rec with
    | .schemaRec _ => buildIndex rest t ci (off + recSize rec) idx
    | .rowRec t' r =>
      let idx' :=
        if t' = t then
          match r.get ci with
          | some v => idx.insert v off
          | none => idx
        else idx
      buildIndex rest t ci (off + recSize rec) idx'

/-- Store a freshly built index under its table and column, from
`self.indexes.entry(table).or_insert_with(HashMap::new).insert(column, index)`. -/
def indexesInsert (indexes : List (String × List (String × Index)))
    (table_name column_name : String) (idx : Index) :
    List (String × List (String × Index)) :=
  ainsert indexes table_name (ainsert ((alookup indexes table_name).getD []) column_name idx)

/-- Create an index, from `BitcaskStorage::create_index`: the table and
column must exist; the index is built by a full log replay and stored. -/
def create_index (s : Storage) (table_name column_name : String) :
    Except DbError Unit × Storage :=
  match alookup s.tables table_name with
  | none => (.error .notFound, s)
  | some (schema, _) =>
    match schema.get_column_index column_name with
    | none => (.error .notFound, s)
    | some column_index =>
      let idx := buildIndex s.log table_name column_index 0
        (Index.new table_name column_name column_index)
      (.ok (), { s with indexes := indexesInsert s.indexes table_name column_name idx })

/-- Point read, from `BitcaskStorage::read_row_at_offset`: seek to `offset`,
require a row marker there, decode and return the row. -/
def read_row_at_offset (log : List Record) (offset : Nat) : Except DbError Row :=
  match decodeRowAt log offset with
  | some (_, r) => .ok r
  | none => .error .corruption

/-- Read a batch of offsets in order, from the offset loop of
`BitcaskStorage::index_lookup`. -/
def readRows (log : List Record) : List Nat → Except DbError (List Row)
  | [] => .ok []
  | off :: rest =>
    match read_row_at_offset log off with
    | .error e => .error e
    | .ok r =>
      match readRows log rest with
      | .error e => .error e
      | .ok rs => .ok (r :: rs)

/-- Combined index lookup used by `index_lookup`. -/
def lookupIndex (s : Storage) (table_name column_name : String) : Option Index :=
  (alookup s.indexes table_name).bind (fun m => alookup m column_name)

/-- Indexed point lookup, from `BitcaskStorage::index_lookup`: fails with
NotFound when there is no index on the column or the key is absent;
otherwise reads each recorded offset from the file, trusting the index
(no re-filtering of the returned rows). -/
def index_lookup (s : Storage) (table_name column_name : String) (value : Value) :
    Except DbError (List Row) :=
  match (lookupIndex s table_name column_name).bind (fun idx => idx.lookup value) with
  | none => .error .notFound
  | some offsets => readRows s.log offsets

/-- SQL literal values, mirroring the `sqlparser::ast::Value` shapes consumed
by `sql_value_to_value`: an unsuffixed number without a decimal point, a
number with a decimal point, a quoted string, NULL, or any other literal
kind (which the executor rejects). -/
inductive SqlLit where
  | intLit (i : Int)
  | floatLit (f : Int)
  | strLit (s : String)
  | nullLit
  | otherLit
deriving DecidableEq, Repr

/-- Binary operators, mirroring `sqlparser::ast::BinaryOperator`: the three
the executor interprets plus a stand-in for every other operator. -/
inductive BinOp where
  | eq
  | gt
  | lt
  | otherOp
deriving DecidableEq, Repr

/-- Expressions, mirroring the `sqlparser::ast::Expr` shapes the executor
distinguishes: a bare column identifier, a literal, a binary operation, or
any other expression shape. -/
inductive SqlExpr where
  | ident (name : String)
  | lit (v : SqlLit)
  | binaryOp (left : SqlExpr) (op : BinOp) (right : SqlExpr)
  | otherExpr
deriving DecidableEq, Repr

/-- Literal conversion, from `QueryExecutor::sql_value_to_value`: numbers
become Integer or Float (by presence of a decimal point, collapsed here into
the two literal constructors), quoted strings become Text, NULL becomes
Null, anything else is an unsupported-value error. -/
def sql_value_to_value : SqlLit → Except DbError Value
  | .intLit i => .ok (.integer i)
  | .floatLit f => .ok (.float f)
  | .strLit s => .ok (.text s)
  | .nullLit => .ok .null
  | .otherLit => .error .invalidInput

/-- Strict literal extraction, from `QueryExecutor::expr_to_value`: only a
literal expression is accepted, anything else is an error. -/
def expr_to_value : SqlExpr → Except DbError Value
  | .lit v => sql_value_to_value v
  | _ => .error .invalidInput

/-- Expression-to-value resolution on a row, from
`QueryExecutor::eval_expr_to_value`: identifiers resolve positionally
through the schema (missing column or missing position yields Null),
literals convert (conversion failure yields Null), every other shape
yields Null. -/
def eval_expr_to_value (expr : SqlExpr) (row : Row) (schema : TableSchema) : Value :=
  match expr with
  | .ident name =>
    match schema.get_column_index name with
    | some ci => (row.get ci).getD .null
    | none => .null
  | .lit v =>
    match sql_value_to_value v with
    | .ok value => value
    | .error _ => .null
  | _ => .null

/-- Predicate evaluation on the scan-fallback path, from
`QueryExecutor::evaluate_expr`: Eq is structural value equality, Gt/Lt are
true only for Integer/Integer or Float/Float operand pairs, every other
operator is false, and every non-binary-operator expression shape is true. -/
def evaluate_expr (expr : SqlExpr) (row : Row) (schema : TableSchema) : Bool :=
  match expr with
  | .binaryOp left op right =>
    let left_val := eval_expr_to_value left row schema
    let right_val := eval_expr_to_value right row schema
    match op with
    | .eq => decide (left_val = right_val)
    | .gt =>
      match left_val, right_val with
      | .integer l, .integer r => decide (l > r)
      | .float l, .float r => decide (l > r)
      | _, _ => false
    | .lt =>
      match left_val, right_val with
      | .integer l, .integer r => decide (l < r)
      | .float l, .float r => decide (l < r)
      | _, _ => false
    | .otherOp => false
  | _ => true

/-- The scan-plus-in-memory-filter access path: the tail of
`QueryExecutor::execute_where` (full scan, then filter by
`evaluate_expr`; error if the table's schema is not in the catalog). -/
def scanFilter (s : Storage) (table_name : String) (expr : SqlExpr) :
    Except DbError (List Row) :=
  match alookup s.tables table_name with
  | none => .error .notFound
  | some (schema, _) =>
    .ok ((scanLog s.log table_name).filter (fun row => evaluate_expr expr row schema))

/-- WHERE-clause dispatch, from `QueryExecutor::execute_where`: if the
expression is `column = <expr>` with a bare identifier on the left, convert
the right side to a literal value (propagating its error) and try an index
lookup, returning its rows directly on a hit; on an index miss, and for
every other expression shape, fall back to scan-plus-filter. -/
def execute_where (s : Storage) (table_name : String) (expr : SqlExpr) :
    Except DbError (List Row) :=
  match expr with
  | .binaryOp (.ident col_name) .eq right =>
    (match expr_to_value right with
     | .error e => .error e
     | .ok value =>
       match index_lookup s table_name col_name value with
       | .ok rows => .ok rows
       | .error _ => scanFilter s table_name expr)
  | _ => scanFilter s table_name expr

/-- Column type descriptors, mirroring the `sqlparser::ast::DataType` groups
matched by `execute_create_table`. -/
inductive ColTypeDesc where
  | intDesc
  | textDesc
  | floatDesc
  | otherDesc
deriving DecidableEq, Repr

/-- The INSERT source, mirroring `insert.source`: VALUES rows, or any other
body shape (rejected). -/
inductive InsertSource where
  | valuesSrc (rows : List (List SqlExpr))
  | otherSrc
deriving DecidableEq, Repr

/-- The SELECT body, mirroring `query.body`: a single-table select with an
optional WHERE expression, or any other set expression (rejected). -/
inductive QueryBody where
  | selectBody (from_tables : List String) (selection : Option SqlExpr)
  | otherBody
deriving DecidableEq, Repr

/-- Parsed statements, mirroring the `sqlparser::ast::Statement` variants
`execute` dispatches on: CREATE TABLE, INSERT, a query, or any other
statement kind (rejected). -/
inductive Statement where
  | createTableStmt (name : String) (cols : List (String × ColTypeDesc))
  | insertStmt (table_name : String) (source : Option InsertSource)
  | queryStmt (body : QueryBody)
  | otherStmt
deriving DecidableEq, Repr

/-- Execution results, from `ExecutionResult` in src/executor/mod.rs. -/
inductive ExecutionResult where
  | created
  | inserted (count : Nat)
  | selected (rows : List Row)
deriving DecidableEq, Repr

/-- Result wrapper, from `QueryResult` in src/executor/mod.rs (the
wall-clock `duration` field is not modelled). -/
structure QueryResult where
  result : ExecutionResult
  used_index : Bool
deriving DecidableEq, Repr

/-- Column-descriptor mapping loop of `execute_create_table`: each supported
descriptor maps to a `ColumnType`, the first unsupported descriptor aborts
with an error. -/
def mapColumns : List (String × ColTypeDesc) → Except DbError (List Column)
  | [] => .ok []
  | (n, d) :: rest =>
    match d with
    | .intDesc => (mapColumns rest).map (fun cs => ⟨n, .integer⟩ :: cs)
    | .textDesc => (mapColumns rest).map (fun cs => ⟨n, .text⟩ :: cs)
    | .floatDesc => (mapColumns rest).map (fun cs => ⟨n, .float⟩ :: cs)
    | .otherDesc => .error .invalidInput

/-- CREATE TABLE execution, from `QueryExecutor::execute_create_table`. -/
def execute_create_table (s : Storage) (name : String)
    (cols : List (String × ColTypeDesc)) (ioOk : Bool) :
    Except DbError ExecutionResult × Storage :=
  match mapColumns cols with
  | .error e => (.error e, s)
  | .ok columns =>
    match create_table s ⟨name, columns⟩ ioOk with
    | (.error e, s1) => (.error e, s1)
    | (.ok (), s1) => (.ok .created, s1)

/-- Literal-row conversion loop of `execute_insert`. -/
def exprsToValues : List SqlExpr → Except DbError (List Value)
  | [] => .ok []
  | e :: rest =>
    match expr_to_value e with
    | .error err => .error err
    | .ok v => (exprsToValues rest).map (fun vs => v :: vs)

/-- Per-row loop of `execute_insert`: convert one VALUES row to literals,
insert it, count it, and continue; the first failure aborts the loop with
the error, keeping the state produced so far. -/
def insertRowsLoop (s : Storage) (table_name : String)
    (rows : List (List SqlExpr)) (ioOk : Bool) (count : Nat) :
    Except DbError ExecutionResult × Storage :=
  match rows with
  | [] => (.ok (.inserted count), s)
  | vr :: rest =>
    match exprsToValues vr with
    | .error e => (.error e, s)
    | .ok vals =>
      match insert s table_name ⟨vals⟩ ioOk with
      | (.error e, s1) => (.error e, s1)
      | (.ok _, s1) => insertRowsLoop s1 table_name rest ioOk (count + 1)

/-- INSERT execution, from `QueryExecutor::execute_insert`: requires a
VALUES source, then inserts the rows one by one. -/
def execute_insert (s : Storage) (table_name : String)
    (source : Option InsertSource) (ioOk : Bool) :
    Except DbError ExecutionResult × Storage :=
  match source with
  | none => (.error .invalidInput, s)
  | some .otherSrc => (.error .invalidInput, s)
  | some (.valuesSrc rows) => insertRowsLoop s table_name rows ioOk 0

/-- SELECT execution, from `QueryExecutor::execute_select`: requires a FROM
table; with a WHERE clause dispatches to `execute_where`, otherwise does a
full scan. -/
def execute_select (s : Storage) (from_tables : List String)
    (selection : Option SqlExpr) : Except DbError ExecutionResult :=
  match from_tables with
  | [] => .error .invalidInput
  | table_name :: _ =>
    match selection with
    | some wc => (execute_where s table_name wc).map .selected
    | none => (scan s table_name).map .selected

/-- Query execution, from `QueryExecutor::execute_query`: only a plain
SELECT body is supported. -/
def execute_query (s : Storage) (body : QueryBody) : Except DbError ExecutionResult :=
  match body with
  | .selectBody from_tables selection => execute_select s from_tables selection
  | .otherBody => .error .invalidInput

/-- Statement dispatch of `QueryExecutor::execute`: CREATE TABLE, INSERT
and queries are executed, every other statement kind is rejected. -/
def executeStmt (s : Storage) (stmt : Statement) (ioOk : Bool) :
    Except DbError ExecutionResult × Storage :=
  match stmt with
  | .createTableStmt name cols => execute_create_table s name cols ioOk
  | .insertStmt table_name source => execute_insert s table_name source ioOk
  | .queryStmt body => (execute_query s body, s)
  | .otherStmt => (.error .invalidInput, s)

/-- Statement execution, from `QueryExecutor::execute` (after the external
parse): an empty statement list is an error; otherwise only the FIRST
statement is executed (the rest are ignored), and the result is wrapped in
a `QueryResult` whose `used_index` flag is hardcoded to `false`. -/
def execute (s : Storage) (stmts : List Statement) (ioOk : Bool) :
    Except DbError QueryResult × Storage :=
  match stmts with
  | [] => (.error .invalidInput, s)
  | stmt :: _ =>
    match executeStmt s stmt ioOk with
    | (.error e, s1) => (.error e, s1)
    | (.ok r, s1) => (.ok { result := r, used_index := false }, s1)

/-- One engine operation, for reasoning about arbitrary operation
sequences: the state-changing storage calls plus the read-only scan and
index lookup (which leave the logical state unchanged). -/
inductive Op where
  | createTableOp (schema : TableSchema) (ioOk : Bool)
  | insertOp (table_name : String) (row : Row) (ioOk : Bool)
  | createIndexOp (table_name column_name : String)
  | scanOp (table_name : String)
  | lookupOp (table_name column_name : String) (value : Value)
deriving DecidableEq, Repr

/-- State transition of one operation on the in-memory/logical state
(results discarded).  Scans and lookups leave this state unchanged — they
mutate only the shared file cursor, which this layer does not carry;
`physStepOp` below additionally tracks that cursor and the physical
positions at which records land. -/
def stepOp (s : Storage) : Op → Storage
  | .createTableOp schema ioOk => (create_table s schema ioOk).2
  | .insertOp table_name row ioOk => (insert s table_name row ioOk).2
  | .createIndexOp table_name column_name => (create_index s table_name column_name).2
  | .scanOp _ => s
  | .lookupOp _ _ _ => s

/-- State reached by running a sequence of operations from a fresh store. -/
def runOps (ops : List Op) : Storage :=
  ops.foldl stepOp Storage.init

/-- Capacity of Rust's `std::io::BufReader` default buffer: a point read
fills up to this many bytes from the underlying file in one go, leaving the
shared cursor that far past the seek target. -/
def bufSize : Nat := 8192

/-- The storage engine state together with the physical state of the shared
file handle, which the `Storage` layer alone does not capture.  The data
file is opened with read+write but WITHOUT append mode, and `write_schema`
and `write_row` write at the current cursor position without seeking, so
where a record physically lands depends on where the previous operation
left the cursor:

* a successful write puts its record at `cursor` and advances it by the
  record's size;
* `scan` and the replay of `create_index` seek to 0 and read to end-of-file,
  leaving the cursor at `file_size`;
* `read_row_at_offset` (the reads of `index_lookup`) seeks to the target
  offset and its fresh `BufReader` fills one buffer, leaving the cursor at
  `min (offset + bufSize) file_size` (records here are far smaller than the
  buffer, so one fill serves the whole record).

`writes` accumulates the chronological (position, record) write events,
which are exact for every operation sequence; the end-of-file cursor
position after full-file reads assumes those reads succeed, which holds on
every sequence whose full-file reads precede the first misplaced write. -/
structure PhysStorage where
  base : Storage
  cursor : Nat
  writes : List (Nat × Record)
  file_size : Nat
deriving DecidableEq, Repr

/-- Physical state of `BitcaskStorage::new` on a fresh (empty) data file:
cursor at 0, nothing written. -/
def physInit : PhysStorage :=
  { base := Storage.init, cursor := 0, writes := [], file_size := 0 }

/-- One operation's transition on the physical state.  The in-memory state
evolves exactly as in `stepOp`; in addition the write of a successful
`create_table` or `insert` lands at the shared cursor (not at the tracked
`current_offset`), and reads move the cursor as described at
`PhysStorage`.  Failed operations return before their seek or write and
leave the cursor alone. -/
def physStepOp (p : PhysStorage) : Op → PhysStorage
  | .createTableOp schema ioOk =>
    match create_table p.base schema ioOk with
    | (.ok _, s') =>
      { base := s',
        cursor := p.cursor + recSize (.schemaRec schema),
        writes := p.writes ++ [(p.cursor, .schemaRec schema)],
        file_size := max p.file_size (p.cursor + recSize (.schemaRec schema)) }
    | (.error _, s') => { p with base := s' }
  | .insertOp table_name row ioOk =>
    match insert p.base table_name row ioOk with
    | (.ok _, s') =>
      { base := s',
        cursor := p.cursor + recSize (.rowRec table_name row),
        writes := p.writes ++ [(p.cursor, .rowRec table_name row)],
        file_size := max p.file_size (p.cursor + recSize (.rowRec table_name row)) }
    | (.error _, s') => { p with base := s' }
  | .createIndexOp table_name column_name =>
    match create_index p.base table_name column_name with
    | (.ok _, s') => { p with base := s', cursor := p.file_size }
    | (.error _, s') => { p with base := s' }
  | .scanOp _ => { p with cursor := p.file_size }
  | .lookupOp table_name column_name value =>
    match (lookupIndex p.base table_name column_name).bind (fun idx => idx.lookup value) with
    | none => p
    | some offsets =>
      { p with cursor := offsets.foldl (fun _ off => min (off + bufSize) p.file_size) p.cursor }

/-- Physical state reached by running a sequence of operations on a fresh
data file. -/
def runPhysOps (ops : List Op) : PhysStorage :=
  ops.foldl physStepOp physInit

/-- Driver performing a sequence of storage-level row inserts with
successful disk writes, stopping at the first failure. -/
def insertAll (s : Storage) (table_name : String) : List Row → Except DbError Unit × Storage
  | [] => (.ok (), s)
  | r :: rs =>
    match insert s table_name r true with
    | (.error e, s1) => (.error e, s1)
    | (.ok _, s1) => insertAll s1 table_name rs

/-- Concrete scenario: a single-column Text table whose one row holds the
text "1", with an index created on that column.  The stored text "1" and
the integer 1 canonicalize to the same index key. -/
def collisionSchema : TableSchema :=
  ⟨"users", [⟨"c", .text⟩]⟩

/-- Operation sequence building the collision scenario. -/
def collisionOps : List Op :=
  [.createTableOp collisionSchema true,
   .insertOp "users" ⟨[.text "1"]⟩ true,
   .createIndexOp "users" "c"]

/-- The WHERE expression `c = 1` (an integer literal) over the collision
scenario. -/
def collisionExpr : SqlExpr :=
  .binaryOp (.ident "c") .eq (.lit (.intLit 1))

/-- Concrete scenario: a single-column Integer table with one row and an
index on the column — no canonical-key collisions. -/
def idSchema : TableSchema :=
  ⟨"users", [⟨"id", .integer⟩]⟩

/-- Operation sequence building the integer-column scenario. -/
def idOps : List Op :=
  [.createTableOp idSchema true,
   .insertOp "users" ⟨[.integer 500]⟩ true,
   .createIndexOp "users" "id"]

/-- A 980-byte text payload, sized so that each row record of `noteSchema`
occupies exactly 1024 bytes on disk. -/
def longNote : String :=
  String.mk (List.replicate 980 'a')

/-- Schema whose rows carry an integer id and a long text payload: the
schema record is 56 bytes and each row record 1024 bytes. -/
def noteSchema : TableSchema :=
  ⟨"users", [⟨"id", .integer⟩, ⟨"note", .text⟩]⟩

/-- Failing sequence for the shared-cursor hazard: create the table, insert
nine 1024-byte rows with ids 1..9 (the log then extends one full reader
buffer past the first row, which starts at offset 56), index the id column,
look up id = 1 — whose point read leaves the shared cursor at
56 + 8192 = 8248, the exact start of the ninth row's record — and then
insert one more row (id 999). -/
def overwriteOps : List Op :=
  [.createTableOp noteSchema true] ++
  (List.range 9).map
    (fun i => Op.insertOp "users" ⟨[.integer ((i : Int) + 1), .text longNote]⟩ true) ++
  [.createIndexOp "users" "id",
   .lookupOp "users" "id" (.integer 1),
   .insertOp "users" ⟨[.integer 999, .text longNote]⟩ true]

/-- Does a row's value at position `ci` canonicalize to the string `key`?
(A missing position never matches; this is the membership condition under
which the index replay and the incremental index maintenance record a
row's offset under `key`.) -/
def keyMatch (ci : Nat) (key : String) (r : Row) : Bool :=
  match r.get ci with
  | some v => decide (v.to_string = key)
  | none => false

/-- Contribution of one record at byte offset `base` to the offsets indexed
under `key` for table `t`, column position `ci`. -/
def rowKeyContribution (t : String) (ci : Nat) (key : String) (base : Nat) :
    Record → List Nat
  | .rowRec t2 r => if t2 = t then (if keyMatch ci key r then [base] else []) else []
  | .schemaRec _ => []

/-- Specification of an index's content: the byte offsets, in log order, of
the row records of table `t` whose value at column position `ci`
canonicalizes to `key`, when the log is laid out starting at byte `base`. -/
def tableKeyOffsets : List Record → String → Nat → String → Nat → List Nat
  | [], _, _, _, _ => []
  | rec :: rest, t, ci, key, base =>
    rowKeyContribution t ci key base rec ++ tableKeyOffsets rest t ci key (base + recSize rec)

/-- The state invariant maintained by every storage operation: the tracked
write offset equals the log's byte size; every row record in the log
belongs to a catalogued table and passed that table's validation; and every
registered index is on an existing column of an existing table and holds,
under every key, exactly the offsets `tableKeyOffsets` prescribes. -/
structure Inv (s : Storage) : Prop where
  offset_eq : s.current_offset = logSize s.log
  rows_valid : ∀ t r, Record.rowRec t r ∈ s.log →
    ∃ sch n, alookup s.tables t = some (sch, n) ∧ sch.validate_row r = .ok ()
  idx_ok : ∀ t c idx, lookupIndex s t c = some idx →
    ∃ sch n, alookup s.tables t = some (sch, n) ∧
      sch.get_column_index c = some idx.column_index ∧
      ∀ key, idxD idx key = tableKeyOffsets s.log t idx.column_index key 0

/-! ### Association-list lemmas -/

theorem alookup_ainsert {α : Type} (m : List (String × α)) (k k' : String) (v : α) :
    alookup (ainsert m k v) k' = if k = k' then some v else alookup m k' := by
  induction m with
  | nil => simp [ainsert, alookup]
  | cons p rest ih =>
    obtain ⟨pk, pv⟩ := p
    by_cases hk : pk = k
    · subst hk
      by_cases h : pk = k' <;> simp [ainsert, alookup, h]
    · by_cases h : pk = k'
      · subst h
        have hne : ¬ k = pk := fun h2 => hk h2.symm
        simp [ainsert, alookup, hk, hne]
      · simp [ainsert, alookup, hk, h, ih]

theorem alookup_mapPush (m : List (String × List Nat)) (k k' : String) (off : Nat) :
    alookup (mapPush m k off) k' =
      if k = k' then some ((alookup m k).getD [] ++ [off]) else alookup m k' := by
  induction m with
  | nil => simp [mapPush, alookup]
  | cons p rest ih =>
    obtain ⟨pk, pv⟩ := p
    by_cases hk : pk = k
    · subst hk
      by_cases h : pk = k' <;> simp [mapPush, alookup, h]
    · by_cases h : pk = k'
      · subst h
        have hne : ¬ k = pk := fun h2 => hk h2.symm
        simp [mapPush, alookup, hk, hne]
      · simp [mapPush, alookup, hk, h, ih]

theorem alookup_map_snd {α β : Type} (m : List (String × α)) (f : String → α → β)
    (k : String) :
    alookup (m.map (fun p => (p.1, f p.1 p.2))) k = (alookup m k).map (f k) := by
  induction m with
  | nil => simp [alookup]
  | cons p rest ih =>
    by_cases h : p.1 = k
    · subst h; simp [alookup]
    · simp [alookup, h, ih]

/-! ### Record-size and log-size lemmas -/

theorem recSize_pos (rec : Record) : 0 < recSize rec := by
  cases rec <;> simp [recSize]

theorem logSize_nil : logSize [] = 0 := rfl

theorem logSize_cons (rec : Record) (l : List Record) :
    logSize (rec :: l) = recSize rec + logSize l := by
  simp [logSize]

theorem logSize_append (l1 l2 : List Record) :
    logSize (l1 ++ l2) = logSize l1 + logSize l2 := by
  simp [logSize]

theorem recStart_strict_mono (log : List Record) :
    ∀ i j, i < j → j < log.length → recStart log i < recStart log j := by
  induction log with
  | nil => intro i j _ hj; simp at hj
  | cons rec rest ih =>
    intro i j hij hj
    cases i with
    | zero =>
      cases j with
      | zero => omega
      | succ j' =>
        have hpos : 0 < recSize rec := recSize_pos rec
        have : logSize (rest.take j') ≥ 0 := Nat.zero_le _
        simp only [recStart, List.take, logSize_cons]
        simp [logSize]
        omega
    | succ i' =>
      cases j with
      | zero => omega
      | succ j' =>
        have hj' : j' < rest.length := by simpa using hj
        have := ih i' j' (by omega) hj'
        simp only [recStart, List.take, logSize_cons] at *
        omega

/-! ### Scan lemmas -/

theorem scanLog_append (l1 l2 : List Record) (t : String) :
    scanLog (l1 ++ l2) t = scanLog l1 t ++ scanLog l2 t := by
  induction l1 with
  | nil => simp [scanLog]
  | cons rec rest ih =>
    cases rec with
    | schemaRec sch => simp [scanLog, ih]
    | rowRec t' r =>
      by_cases h : t' = t <;> simp [scanLog, h, ih]

theorem mem_of_mem_scanLog (log : List Record) (t : String) (r : Row) :
    r ∈ scanLog log t → Record.rowRec t r ∈ log := by
  induction log with
  | nil => simp [scanLog]
  | cons rec rest ih =>
    cases rec with
    | schemaRec sch =>
      intro h; exact List.mem_cons_of_mem _ (ih (by simpa [scanLog] using h))
    | rowRec t' r' =>
      by_cases ht : t' = t
      · subst ht
        intro h
        rcases (by simpa [scanLog] using h : r = r' ∨ r ∈ scanLog rest t') with h1 | h2
        · subst h1; exact List.mem_cons_self _ _
        · exact List.mem_cons_of_mem _ (ih h2)
      · intro h; exact List.mem_cons_of_mem _ (ih (by simpa [scanLog, ht] using h))

/-! ### Validation lemmas -/

theorem colIndexAux_bound (cols : List Column) (name : String) :
    ∀ i j, colIndexAux cols name i = some j → i ≤ j ∧ j - i < cols.length := by
  induction cols with
  | nil => intro i j h; simp [colIndexAux] at h
  | cons c rest ih =>
    intro i j h
    by_cases hc : c.name = name
    · simp [colIndexAux, hc] at h
      subst h; simp
    · simp [colIndexAux, hc] at h
      have := ih (i + 1) j h
      constructor
      · omega
      · simp; omega

theorem get_column_index_lt (sch : TableSchema) (name : String) (ci : Nat) :
    sch.get_column_index name = some ci → ci < sch.columns.length := by
  intro h
  have := colIndexAux_bound sch.columns name 0 ci h
  omega

theorem validateAux_ok_iff (vs : List Value) (cs : List Column) (i : Nat) :
    validateAux vs cs i = .ok () ↔
      ∀ j v c, vs.get? j = some v → cs.get? j = some c →
        v.matches_type c.column_type = true := by
  induction vs generalizing cs i with
  | nil => simp [validateAux]
  | cons v vs ih =>
    cases cs with
    | nil => simp [validateAux]
    | cons c cs =>
      by_cases hm : v.matches_type c.column_type = true
      · simp only [validateAux, hm, if_true]
        rw [ih cs (i + 1)]
        constructor
        · intro h j v' c' h1 h2
          cases j with
          | zero =>
            simp at h1 h2
            subst h1; subst h2; exact hm
          | succ j' => exact h j' v' c' (by simpa using h1) (by simpa using h2)
        · intro h j v' c' h1 h2
          exact h (j + 1) v' c' (by simpa using h1) (by simpa using h2)
      · simp only [validateAux, hm, if_false]
        constructor
        · intro h; cases h
        · intro h
          exact absurd (h 0 v c (by simp) (by simp)) hm

theorem validateAux_typeMismatch (vs : List Value) (cs : List Column) :
    ∀ i name j exp got,
      validateAux vs cs i = .error (.typeMismatch name j exp got) →
      ∃ k, j = i + k ∧ vs.get? k = some got ∧ cs.get? k = some ⟨name, exp⟩ ∧
        got.matches_type exp = false := by
  induction vs generalizing cs with
  | nil => intro i name j exp got h; simp [validateAux] at h
  | cons v vs ih =>
    cases cs with
    | nil => intro i name j exp got h; simp [validateAux] at h
    | cons c cs =>
      intro i name j exp got h
      by_cases hm : v.matches_type c.column_type = true
      · rw [validateAux, if_pos hm] at h
        obtain ⟨k, hk, h1, h2, h3⟩ := ih cs (i + 1) name j exp got h
        exact ⟨k + 1, by omega, by simpa using h1, by simpa using h2, h3⟩
      · rw [validateAux, if_neg hm] at h
        simp only [Except.error.injEq, SchemaErr.typeMismatch.injEq] at h
        obtain ⟨h1, h2, h3, h4⟩ := h
        obtain ⟨cn, ct⟩ := c
        simp only at h1 h3
        subst h1; subst h2; subst h3; subst h4
        refine ⟨0, by omega, by simp, by simp, ?_⟩
        simpa using hm

theorem validate_row_ok_length (sch : TableSchema) (row : Row) :
    sch.validate_row row = .ok () → row.values.length = sch.columns.length := by
  intro h
  by_cases hl : row.values.length = sch.columns.length
  · exact hl
  · simp [TableSchema.validate_row, hl] at h

/-- Claim C7: `validate_row` accepts a row exactly when its value count
equals the schema's column count and every position's value matches the
declared column type, with Null accepted at any position; an arity mismatch
is reported as such, and a type failure is reported naming the offending
column's name and index together with its declared type and actual value. -/
theorem C7_validate_row_spec (sch : TableSchema) (row : Row) :
    (sch.validate_row row = .ok () ↔
      (row.values.length = sch.columns.length ∧
        ∀ i v c, row.values.get? i = some v → sch.columns.get? i = some c →
          v.matches_type c.column_type = true)) ∧
    (∀ (v : Value) (ct : ColumnType), v.matches_type ct = true ↔
      (v = .null ∨ (∃ n, v = .integer n ∧ ct = .integer) ∨
        (∃ s, v = .text s ∧ ct = .text) ∨ (∃ f, v = .float f ∧ ct = .float))) ∧
    (row.values.length ≠ sch.columns.length →
      sch.validate_row row = .error (.arityMismatch row.values.length sch.columns.length)) ∧
    (∀ name i exp got, sch.validate_row row = .error (.typeMismatch name i exp got) →
      sch.columns.get? i = some ⟨name, exp⟩ ∧ row.values.get? i = some got ∧
        got.matches_type exp = false) := by
  refine ⟨?_, ?_, ?_, ?_⟩
  · constructor
    · intro h
      have hl := validate_row_ok_length sch row h
      refine ⟨hl, ?_⟩
      rw [TableSchema.validate_row, if_neg (by omega)] at h
      exact (validateAux_ok_iff row.values sch.columns 0).1 h
    · rintro ⟨hl, h⟩
      rw [TableSchema.validate_row, if_neg (by omega)]
      exact (validateAux_ok_iff row.values sch.columns 0).2 h
  · intro v ct
    cases v <;> cases ct <;> simp [Value.matches_type]
  · intro hl
    simp [TableSchema.validate_row, hl]
  · intro name i exp got h
    by_cases hl : row.values.length = sch.columns.length
    · rw [TableSchema.validate_row, if_neg (by omega)] at h
      obtain ⟨k, hk, h1, h2, h3⟩ := validateAux_typeMismatch row.values sch.columns 0 name i exp got h
      have : i = k := by omega
      subst this
      exact ⟨h2, h1, h3⟩
    · simp [TableSchema.validate_row, hl] at h

/-- Claim C8: on the scan-fallback path, an equality comparison evaluates by
structural value equality (so Null equals Null); greater-than and less-than
evaluate to true only for Integer-vs-Integer or Float-vs-Float operand
pairs, and to false (the function is Bool-valued, so never an error) for
every other pairing; any other binary operator evaluates to false; and
every non-binary-operator expression shape evaluates to true. -/
theorem C8_evaluate_expr_spec (row : Row) (sch : TableSchema) (l r : SqlExpr) :
    (evaluate_expr (.binaryOp l .eq r) row sch =
      decide (eval_expr_to_value l row sch = eval_expr_to_value r row sch)) ∧
    (eval_expr_to_value l row sch = .null → eval_expr_to_value r row sch = .null →
      evaluate_expr (.binaryOp l .eq r) row sch = true) ∧
    (evaluate_expr (.binaryOp l .gt r) row sch = true →
      (∃ a b, eval_expr_to_value l row sch = .integer a ∧
        eval_expr_to_value r row sch = .integer b ∧ a > b) ∨
      (∃ a b, eval_expr_to_value l row sch = .float a ∧
        eval_expr_to_value r row sch = .float b ∧ a > b)) ∧
    (evaluate_expr (.binaryOp l .lt r) row sch = true →
      (∃ a b, eval_expr_to_value l row sch = .integer a ∧
        eval_expr_to_value r row sch = .integer b ∧ a < b) ∨
      (∃ a b, eval_expr_to_value l row sch = .float a ∧
        eval_expr_to_value r row sch = .float b ∧ a < b)) ∧
    ((¬ ∃ a b, eval_expr_to_value l row sch = .integer a ∧
        eval_expr_to_value r row sch = .integer b) →
     (¬ ∃ a b, eval_expr_to_value l row sch = .float a ∧
        eval_expr_to_value r row sch = .float b) →
      evaluate_expr (.binaryOp l .gt r) row sch = false ∧
      evaluate_expr (.binaryOp l .lt r) row sch = false) ∧
    (evaluate_expr (.binaryOp l .otherOp r) row sch = false) ∧
    (∀ name, evaluate_expr (.ident name) row sch = true) ∧
    (∀ v, evaluate_expr (.lit v) row sch = true) ∧
    (evaluate_expr .otherExpr row sch = true) := by
  refine ⟨rfl, ?_, ?_, ?_, ?_, rfl, fun _ => rfl, fun _ => rfl, rfl⟩
  · intro h1 h2
    simp [evaluate_expr, h1, h2]
  · intro h
    rcases hl : eval_expr_to_value l row sch <;> rcases hr : eval_expr_to_value r row sch <;>
      simp [evaluate_expr, hl, hr] at h ⊢
    · exact h
    · exact h
  · intro h
    rcases hl : eval_expr_to_value l row sch <;> rcases hr : eval_expr_to_value r row sch <;>
      simp [evaluate_expr, hl, hr] at h ⊢
    · exact h
    · exact h
  · intro hni hnf
    rcases hl : eval_expr_to_value l row sch <;> rcases hr : eval_expr_to_value r row sch <;>
      simp [evaluate_expr, hl, hr] at hni hnf ⊢

/-- Claim C6: a row insert validates against the schema strictly before the
log append: when the table is missing or validation fails, `insert` returns
an error and the state — log, catalog row counts and indexes alike — is
returned unchanged. -/
theorem C6_insert_validation_precedes_append (s : Storage) (t : String) (row : Row)
    (ioOk : Bool) :
    (alookup s.tables t = none ∨
      ∃ sch n e, alookup s.tables t = some (sch, n) ∧ sch.validate_row row = .error e) →
    ∃ err, insert s t row ioOk = (.error err, s) := by
  intro h
  rcases h with h | ⟨sch, n, e, hlook, hval⟩
  · exact ⟨.notFound, by simp [insert, h]⟩
  · exact ⟨.invalidData e, by simp [insert, hlook, hval]⟩

/-- Claim C9: after parsing, `execute` rejects an empty statement list and
otherwise runs only the first statement — appending further statements
changes neither the result nor the resulting state. -/
theorem C9_execute_runs_first_statement_only (s : Storage) (ioOk : Bool) :
    execute s [] ioOk = (.error .invalidInput, s) ∧
    ∀ (stmt : Statement) (rest : List Statement),
      execute s (stmt :: rest) ioOk = execute s [stmt] ioOk :=
  ⟨rfl, fun _ _ => rfl⟩

/-! ### Operation effect lemmas -/

theorem insert_ok_elim (s : Storage) (t : String) (row : Row) (ioOk : Bool)
    (off : Nat) (s' : Storage) :
    insert s t row ioOk = (.ok off, s') →
    ∃ sch n, alookup s.tables t = some (sch, n) ∧ sch.validate_row row = .ok () ∧
      ioOk = true ∧ off = s.current_offset ∧
      s' = { log := s.log ++ [.rowRec t row],
             tables := ainsert s.tables t (sch, n + 1),
             indexes := updateIndexes s.indexes t sch row s.current_offset,
             current_offset := s.current_offset + recSize (.rowRec t row) } := by
  intro h
  cases hlook : alookup s.tables t with
  | none => simp [insert, hlook] at h
  | some p =>
    obtain ⟨sch, n⟩ := p
    cases hval : sch.validate_row row with
    | error e => simp [insert, hlook, hval] at h
    | ok u =>
      cases u
      cases ioOk with
      | false => simp [insert, hlook, hval, write_row] at h
      | true =>
        simp only [insert, hlook, hval, write_row, if_true, Prod.mk.injEq,
          Except.ok.injEq] at h
        refine ⟨sch, n, rfl, hval, rfl, h.1.symm, ?_⟩
        rw [← h.2]
        simp [recSize]

theorem insert_error_state (s : Storage) (t : String) (row : Row) (ioOk : Bool)
    (e : DbError) (s' : Storage) :
    insert s t row ioOk = (.error e, s') → s' = s := by
  intro h
  cases hlook : alookup s.tables t with
  | none => simp [insert, hlook] at h; exact h.2.symm
  | some p =>
    obtain ⟨sch, n⟩ := p
    cases hval : sch.validate_row row with
    | error e2 => simp [insert, hlook, hval] at h; exact h.2.symm
    | ok u =>
      cases u
      cases ioOk with
      | false => simp [insert, hlook, hval, write_row] at h; exact h.2.symm
      | true => simp [insert, hlook, hval, write_row] at h

theorem create_table_ok_elim (s : Storage) (schema : TableSchema) (ioOk : Bool)
    (s' : Storage) :
    create_table s schema ioOk = (.ok (), s') →
    alookup s.tables schema.name = none ∧ ioOk = true ∧
      s' = { log := s.log ++ [.schemaRec schema],
             tables := ainsert s.tables schema.name (schema, 0),
             indexes := s.indexes,
             current_offset := s.current_offset + recSize (.schemaRec schema) } := by
  intro h
  cases hlook : alookup s.tables schema.name with
  | some p => simp [create_table, hlook] at h
  | none =>
    cases ioOk with
    | false => simp [create_table, hlook, write_schema] at h
    | true =>
      simp only [create_table, hlook, Option.isSome_none, Bool.false_eq_true,
        if_false, write_schema, if_true, Prod.mk.injEq] at h
      refine ⟨rfl, rfl, ?_⟩
      rw [← h.2]
      simp [recSize]

theorem create_table_error_elim (s : Storage) (schema : TableSchema) (ioOk : Bool)
    (e : DbError) (s' : Storage) :
    create_table s schema ioOk = (.error e, s') →
    (s' = s) ∨
    (alookup s.tables schema.name = none ∧ s'.log = s.log ∧ s'.indexes = s.indexes ∧
      s'.current_offset = s.current_offset ∧
      s'.tables = ainsert s.tables schema.name (schema, 0)) := by
  intro h
  cases hlook : alookup s.tables schema.name with
  | some p => simp [create_table, hlook] at h; exact Or.inl h.2.symm
  | none =>
    cases ioOk with
    | true => simp [create_table, hlook, write_schema] at h
    | false =>
      simp only [create_table, hlook, Option.isSome_none, Bool.false_eq_true,
        if_false, write_schema, Prod.mk.injEq] at h
      exact Or.inr ⟨rfl, by rw [← h.2], by rw [← h.2], by rw [← h.2], by rw [← h.2]⟩

theorem create_index_ok_elim (s : Storage) (t c : String) (s' : Storage) :
    create_index s t c = (.ok (), s') →
    ∃ sch n ci, alookup s.tables t = some (sch, n) ∧
      sch.get_column_index c = some ci ∧
      s' = { s with indexes :=
        indexesInsert s.indexes t c (buildIndex s.log t ci 0 (Index.new t c ci)) } := by
  intro h
  cases hlook : alookup s.tables t with
  | none => simp [create_index, hlook] at h
  | some p =>
    obtain ⟨sch, n⟩ := p
    cases hci : sch.get_column_index c with
    | none => simp [create_index, hlook, hci] at h
    | some ci =>
      simp only [create_index, hlook, hci, Prod.mk.injEq] at h
      exact ⟨sch, n, ci, rfl, hci, h.2.symm⟩

theorem create_index_error_state (s : Storage) (t c : String) (e : DbError)
    (s' : Storage) :
    create_index s t c = (.error e, s') → s' = s := by
  intro h
  cases hlook : alookup s.tables t with
  | none => simp [create_index, hlook] at h; exact h.2.symm
  | some p =>
    obtain ⟨sch, n⟩ := p
    cases hci : sch.get_column_index c with
    | none => simp [create_index, hlook, hci] at h; exact h.2.symm
    | some ci => simp [create_index, hlook, hci] at h

/-- Claim C4: starting from any storage state, after a sequence of
successful row inserts into a table, a full scan of that table returns
exactly the rows already in the log for that table followed by the inserted
rows in insertion order; scans of other tables are unaffected, and schema
records never contribute scan rows. -/
theorem C4_scan_returns_inserts_in_order (rs : List Row) :
    ∀ (s s' : Storage) (t : String),
      insertAll s t rs = (.ok (), s') →
      scan s' t = .ok (scanLog s.log t ++ rs) ∧
      (∀ u, u ≠ t → scan s' u = scan s u) ∧
      (∀ schema, scanLog (s.log ++ [.schemaRec schema]) t = scanLog s.log t) := by
  induction rs with
  | nil =>
    intro s s' t h
    simp only [insertAll, Prod.mk.injEq] at h
    rw [← h.2]
    refine ⟨by simp [scan], fun u _ => rfl, fun schema => ?_⟩
    simp [scanLog_append, scanLog]
  | cons r rs ih =>
    intro s s' t h
    rw [insertAll] at h
    cases hins : insert s t r true with
    | mk res s1 =>
      cases res with
      | error e => rw [hins] at h; simp at h
      | ok off =>
        rw [hins] at h
        obtain ⟨sch, n, -, -, -, -, hs1⟩ := insert_ok_elim s t r true off s1 hins
        obtain ⟨ih1, ih2, -⟩ := ih s1 s' t h
        have hlog : s1.log = s.log ++ [.rowRec t r] := by rw [hs1]
        refine ⟨?_, ?_, fun schema => by simp [scanLog_append, scanLog]⟩
        · rw [ih1, hlog, scanLog_append]
          simp [scanLog]
        · intro u hu
          rw [ih2 u hu]
          have hne : ¬ t = u := fun h2 => hu h2.symm
          simp [scan, hlog, scanLog_append, scanLog, hne]

/-- Claim C4 witness: two inserts into a one-column integer table starting
from the state that already holds one row of that table. -/
theorem C4_witness :
    (∃ s', insertAll (runOps idOps) "users" [⟨[.integer 1]⟩, ⟨[.integer 2]⟩] = (.ok (), s') ∧
      scan s' "users" = .ok [⟨[.integer 500]⟩, ⟨[.integer 1]⟩, ⟨[.integer 2]⟩]) := by
  refine ⟨(insertAll (runOps idOps) "users" [⟨[.integer 1]⟩, ⟨[.integer 2]⟩]).2, rfl, ?_⟩
  have h := C4_scan_returns_inserts_in_order [⟨[.integer 1]⟩, ⟨[.integer 2]⟩]
    (runOps idOps) (insertAll (runOps idOps) "users" [⟨[.integer 1]⟩, ⟨[.integer 2]⟩]).2
    "users" rfl
  rw [h.1]
  rfl

/-- Claim C6 witness: inserting a text value into an integer column is
rejected with the state unchanged. -/
theorem C6_witness :
    ∃ err, insert (runOps idOps) "users" ⟨[.text "x"]⟩ true =
      (.error err, runOps idOps) :=
  C6_insert_validation_precedes_append (runOps idOps) "users" ⟨[.text "x"]⟩ true
    (Or.inr ⟨idSchema, 1, .typeMismatch "id" 0 .integer (.text "x"), rfl, rfl⟩)

/-- Claim C7 witness: an arity mismatch is rejected naming the counts, and
Null passes the type check against an Integer column. -/
theorem C7_witness :
    TableSchema.validate_row ⟨"t", [⟨"a", .integer⟩]⟩ ⟨[.integer 1, .integer 2]⟩ =
      .error (.arityMismatch 2 1) ∧
    Value.matches_type .null .integer = true ∧
    TableSchema.validate_row ⟨"t", [⟨"a", .integer⟩]⟩ ⟨[.null]⟩ = .ok () :=
  ⟨(C7_validate_row_spec ⟨"t", [⟨"a", .integer⟩]⟩ ⟨[.integer 1, .integer 2]⟩).2.2.1
      (by decide),
   ((C7_validate_row_spec ⟨"t", [⟨"a", .integer⟩]⟩ ⟨[]⟩).2.1 .null .integer).2
      (Or.inl rfl),
   ((C7_validate_row_spec ⟨"t", [⟨"a", .integer⟩]⟩ ⟨[.null]⟩).1).2
      ⟨rfl, by
        intro i v c h1 h2
        cases i with
        | zero => simp at h1 h2; subst h1; subst h2; rfl
        | succ j => simp_all⟩⟩

/-- Claim C8 witness: concrete evaluations through the theorem — an integer
greater-than that holds, a type-mismatched less-than that is false, and a
Null-equals-Null comparison that is true. -/
theorem C8_witness :
    ((∃ a b, eval_expr_to_value (.lit (.intLit 2)) ⟨[]⟩ ⟨"t", []⟩ = .integer a ∧
        eval_expr_to_value (.lit (.intLit 1)) ⟨[]⟩ ⟨"t", []⟩ = .integer b ∧ a > b) ∨
      (∃ a b, eval_expr_to_value (.lit (.intLit 2)) ⟨[]⟩ ⟨"t", []⟩ = .float a ∧
        eval_expr_to_value (.lit (.intLit 1)) ⟨[]⟩ ⟨"t", []⟩ = .float b ∧ a > b)) ∧
    evaluate_expr (.binaryOp (.lit (.strLit "a")) .lt (.lit (.intLit 1))) ⟨[]⟩ ⟨"t", []⟩
      = false ∧
    evaluate_expr (.binaryOp (.lit .nullLit) .eq (.lit .nullLit)) ⟨[]⟩ ⟨"t", []⟩
      = true := by
  refine ⟨?_, ?_, ?_⟩
  · exact (C8_evaluate_expr_spec ⟨[]⟩ ⟨"t", []⟩ (.lit (.intLit 2)) (.lit (.intLit 1))).2.2.1
      (by decide)
  · exact ((C8_evaluate_expr_spec ⟨[]⟩ ⟨"t", []⟩ (.lit (.strLit "a")) (.lit (.intLit 1))).2.2.2.2.1
      (by rintro ⟨a, b, ha, hb⟩; simp [eval_expr_to_value, sql_value_to_value] at ha)
      (by rintro ⟨a, b, ha, hb⟩; simp [eval_expr_to_value, sql_value_to_value] at ha)).2
  · exact (C8_evaluate_expr_spec ⟨[]⟩ ⟨"t", []⟩ (.lit .nullLit) (.lit .nullLit)).2.1 rfl rfl

/-! ### Multi-row insert lemmas -/

theorem insertRowsLoop_ok_count (rows : List (List SqlExpr)) :
    ∀ (s s1 : Storage) (t : String) (ioOk : Bool) (c : Nat) (res : ExecutionResult),
      insertRowsLoop s t rows ioOk c = (.ok res, s1) →
      res = .inserted (c + rows.length) := by
  induction rows with
  | nil =>
    intro s s1 t ioOk c res h
    simp only [insertRowsLoop, Prod.mk.injEq, Except.ok.injEq] at h
    simp [← h.1]
  | cons vr rest ih =>
    intro s s1 t ioOk c res h
    rw [insertRowsLoop] at h
    cases hconv : exprsToValues vr with
    | error e => simp [hconv] at h
    | ok vals =>
      simp only [hconv] at h
      cases hins : insert s t ⟨vals⟩ ioOk with
      | mk r s2 =>
        cases r with
        | error e => simp [hins] at h
        | ok off =>
          simp only [hins] at h
          have := ih s2 s1 t ioOk (c + 1) res h
          simp only [this, List.length_cons]
          congr 1
          omega

theorem insertRowsLoop_ok_append (rows1 : List (List SqlExpr)) :
    ∀ (rows2 : List (List SqlExpr)) (s s1 : Storage) (t : String) (ioOk : Bool)
      (c k : Nat),
      insertRowsLoop s t rows1 ioOk c = (.ok (.inserted k), s1) →
      insertRowsLoop s t (rows1 ++ rows2) ioOk c = insertRowsLoop s1 t rows2 ioOk k := by
  induction rows1 with
  | nil =>
    intro rows2 s s1 t ioOk c k h
    simp only [insertRowsLoop, Prod.mk.injEq, Except.ok.injEq,
      ExecutionResult.inserted.injEq] at h
    rw [List.nil_append, h.1, h.2]
  | cons vr rest ih =>
    intro rows2 s s1 t ioOk c k h
    rw [insertRowsLoop] at h
    rw [List.cons_append, insertRowsLoop]
    cases hconv : exprsToValues vr with
    | error e => simp [hconv] at h
    | ok vals =>
      simp only [hconv] at h ⊢
      cases hins : insert s t ⟨vals⟩ ioOk with
      | mk r s2 =>
        cases r with
        | error e => simp [hins] at h
        | ok off =>
          simp only [hins] at h ⊢
          exact ih rows2 s2 s1 t ioOk (c + 1) k h

theorem insertRowsLoop_ok_log (rows : List (List SqlExpr)) :
    ∀ (s s1 : Storage) (t : String) (ioOk : Bool) (c : Nat) (res : ExecutionResult),
      insertRowsLoop s t rows ioOk c = (.ok res, s1) →
      ∃ rws : List Row, rws.length = rows.length ∧
        s1.log = s.log ++ rws.map (Record.rowRec t) := by
  induction rows with
  | nil =>
    intro s s1 t ioOk c res h
    simp only [insertRowsLoop, Prod.mk.injEq] at h
    exact ⟨[], rfl, by simp [← h.2]⟩
  | cons vr rest ih =>
    intro s s1 t ioOk c res h
    rw [insertRowsLoop] at h
    cases hconv : exprsToValues vr with
    | error e => simp [hconv] at h
    | ok vals =>
      simp only [hconv] at h
      cases hins : insert s t ⟨vals⟩ ioOk with
      | mk r s2 =>
        cases r with
        | error e => simp [hins] at h
        | ok off =>
          simp only [hins] at h
          obtain ⟨rws, hlen, hlog⟩ := ih s2 s1 t ioOk (c + 1) res h
          obtain ⟨sch, n, -, -, -, -, hs2⟩ := insert_ok_elim s t ⟨vals⟩ ioOk off s2 hins
          refine ⟨⟨vals⟩ :: rws, by simp [hlen], ?_⟩
          rw [hlog, hs2]
          simp

/-- Claim C10: a multi-row INSERT is not atomic.  When the first k value
rows insert successfully and the next one fails (literal conversion or the
storage insert), `execute_insert` returns the error, the final state is
exactly the state after the k successful inserts (nothing is rolled back),
and that state's log carries the k new row records of the table. -/
theorem C10_multi_row_insert_not_atomic (s s1 : Storage) (t : String)
    (rows1 : List (List SqlExpr)) (vr : List SqlExpr) (rest : List (List SqlExpr))
    (ioOk : Bool) (k : Nat) :
    insertRowsLoop s t rows1 ioOk 0 = (.ok (.inserted k), s1) →
    ((∃ e, exprsToValues vr = .error e) ∨
      (∃ vals e s2, exprsToValues vr = .ok vals ∧
        insert s1 t ⟨vals⟩ ioOk = (.error e, s2))) →
    ∃ e, execute_insert s t (some (.valuesSrc (rows1 ++ vr :: rest))) ioOk =
        (.error e, s1) ∧
      k = rows1.length ∧
      ∃ rws : List Row, rws.length = rows1.length ∧
        s1.log = s.log ++ rws.map (Record.rowRec t) := by
  intro h1 h2
  have hk : ExecutionResult.inserted k = .inserted (0 + rows1.length) :=
    insertRowsLoop_ok_count rows1 s s1 t ioOk 0 (.inserted k) h1
  have hk2 : k = rows1.length := by
    simpa using hk
  have happ := insertRowsLoop_ok_append rows1 (vr :: rest) s s1 t ioOk 0 k h1
  obtain ⟨rws, hlen, hlog⟩ := insertRowsLoop_ok_log rows1 s s1 t ioOk 0 (.inserted k) h1
  rcases h2 with ⟨e, hconv⟩ | ⟨vals, e, s2, hconv, hins⟩
  · refine ⟨e, ?_, hk2, rws, hlen, hlog⟩
    simp only [execute_insert]
    rw [happ, insertRowsLoop]
    simp only [hconv]
  · have hs2 : s2 = s1 := insert_error_state s1 t ⟨vals⟩ ioOk e s2 hins
    refine ⟨e, ?_, hk2, rws, hlen, hlog⟩
    simp only [execute_insert]
    rw [happ, insertRowsLoop]
    simp only [hconv, hins, hs2]

/-- Claim C10 witness: in a one-column integer table, inserting the rows
`(1), ('x')` persists the first row, fails on the second, and returns the
error with the first row still in the log. -/
theorem C10_witness :
    ∃ e, execute_insert (runOps idOps) "users"
        (some (.valuesSrc [[.lit (.intLit 1)], [.lit (.strLit "x")]])) true =
        (.error e, (insertRowsLoop (runOps idOps) "users" [[.lit (.intLit 1)]] true 0).2) ∧
      1 = 1 ∧
      ∃ rws : List Row, rws.length = 1 ∧
        (insertRowsLoop (runOps idOps) "users" [[.lit (.intLit 1)]] true 0).2.log =
          (runOps idOps).log ++ rws.map (Record.rowRec "users") := by
  have h := C10_multi_row_insert_not_atomic (runOps idOps)
    (insertRowsLoop (runOps idOps) "users" [[.lit (.intLit 1)]] true 0).2 "users"
    [[.lit (.intLit 1)]] [.lit (.strLit "x")] [] true 1 rfl
    (Or.inr ⟨[.text "x"], .invalidData (.typeMismatch "id" 0 .integer (.text "x")),
      (insertRowsLoop (runOps idOps) "users" [[.lit (.intLit 1)]] true 0).2, rfl, rfl⟩)
  simpa using h

/-- Claim C2 evaluation at the failing input: creating a fresh table while
the schema write fails returns an I/O error, yet the catalog retains the
newly registered entry — the in-memory registration happens before the
durable write, contradicting the claim that a failed create leaves the
catalog unchanged.  (The log itself is unchanged.) -/
theorem C2_failed_write_leaves_catalog_mutated :
    create_table Storage.init idSchema false =
      (.error .ioError, { Storage.init with tables := [("users", idSchema, 0)] }) ∧
    ({ Storage.init with tables := [("users", idSchema, 0)] }).tables ≠
      Storage.init.tables ∧
    ({ Storage.init with tables := [("users", idSchema, 0)] }).log =
      Storage.init.log := by
  exact ⟨rfl, by decide, rfl⟩

/-- Claim C3 counterexample: a SELECT answered via an index hit (the index
lookup succeeds and supplies the returned rows) still carries
`used_index = false` in its `QueryResult`, because `execute` hardcodes the
flag to false on every branch. -/
theorem C3_counterexample_index_hit_flag_false :
    index_lookup (runOps collisionOps) "users" "c" (.integer 1) =
      .ok [⟨[.text "1"]⟩] ∧
    ∃ qr, execute (runOps collisionOps)
        [.queryStmt (.selectBody ["users"] (some collisionExpr))] true =
        (.ok qr, runOps collisionOps) ∧
      qr.result = .selected [⟨[.text "1"]⟩] ∧ qr.used_index = false :=
  ⟨rfl, ⟨{ result := .selected [⟨[.text "1"]⟩], used_index := false }, rfl, rfl, rfl⟩⟩

/-- Claim C3 amended: every successful `execute` returns a `QueryResult`
whose `used_index` flag is false — including index-hit selects — and whose
result is exactly one of Created, Inserted(count) or Selected(rows). -/
theorem C3_amended_used_index_always_false (s : Storage) (stmts : List Statement)
    (ioOk : Bool) (qr : QueryResult) (s' : Storage) :
    execute s stmts ioOk = (.ok qr, s') →
    qr.used_index = false ∧
    (qr.result = .created ∨ (∃ n, qr.result = .inserted n) ∨
      ∃ rows, qr.result = .selected rows) := by
  intro h
  cases stmts with
  | nil => simp [execute] at h
  | cons stmt rest =>
    rw [execute] at h
    cases hstep : executeStmt s stmt ioOk with
    | mk res s1 =>
      cases res with
      | error e => rw [hstep] at h; simp at h
      | ok r =>
        rw [hstep] at h
        simp only [Prod.mk.injEq, Except.ok.injEq] at h
        rw [← h.1]
        refine ⟨rfl, ?_⟩
        cases r with
        | created => exact Or.inl rfl
        | inserted n => exact Or.inr (Or.inl ⟨n, rfl⟩)
        | selected rows => exact Or.inr (Or.inr ⟨rows, rfl⟩)

/-- Claim C3 amended witness: the index-hit select of the collision
scenario, pushed through the amended theorem. -/
theorem C3_amended_witness :
    ({ result := .selected [⟨[.text "1"]⟩], used_index := false } : QueryResult).used_index
        = false ∧
    (({ result := .selected [⟨[.text "1"]⟩], used_index := false } : QueryResult).result
        = .created ∨
      (∃ n, ({ result := .selected [⟨[.text "1"]⟩], used_index := false } : QueryResult).result
        = .inserted n) ∨
      ∃ rows, ({ result := .selected [⟨[.text "1"]⟩], used_index := false } : QueryResult).result
        = .selected rows) :=
  C3_amended_used_index_always_false (runOps collisionOps)
    [.queryStmt (.selectBody ["users"] (some collisionExpr))] true
    { result := .selected [⟨[.text "1"]⟩], used_index := false }
    (runOps collisionOps) rfl

/-- Claim C1 counterexample: in the collision scenario (a Text column whose
row holds the text "1", indexed), the query `c = 1` with an integer literal
returns the row via the index path — the integer 1 canonicalizes to the
key "1" and index results are not re-filtered — while the
scan-plus-filter path returns no rows, since `Text "1" = Integer 1` is
false under structural equality.  The two access paths disagree even as
multisets. -/
theorem C1_counterexample_lossy_key_collision :
    execute_where (runOps collisionOps) "users" collisionExpr = .ok [⟨[.text "1"]⟩] ∧
    scanFilter (runOps collisionOps) "users" collisionExpr = .ok [] ∧
    ([⟨[.text "1"]⟩] : List Row) ≠ [] :=
  ⟨rfl, rfl, by decide⟩

/-! ### Offset-specification lemmas -/

theorem tableKeyOffsets_schemaRec (sch : TableSchema) (t : String) (ci : Nat)
    (key : String) (b : Nat) :
    tableKeyOffsets [.schemaRec sch] t ci key b = [] := by
  simp [tableKeyOffsets, rowKeyContribution]

theorem tableKeyOffsets_append (l1 : List Record) :
    ∀ (l2 : List Record) (t : String) (ci : Nat) (key : String) (b : Nat),
      tableKeyOffsets (l1 ++ l2) t ci key b =
        tableKeyOffsets l1 t ci key b ++ tableKeyOffsets l2 t ci key (b + logSize l1) := by
  induction l1 with
  | nil => intro l2 t ci key b; simp [tableKeyOffsets, logSize]
  | cons rec rest ih =>
    intro l2 t ci key b
    rw [List.cons_append, tableKeyOffsets, tableKeyOffsets, ih, logSize_cons,
      List.append_assoc, Nat.add_assoc]

theorem decodeRowAt_append (l1 : List Record) :
    ∀ (l2 : List Record) (k : Nat),
      decodeRowAt (l1 ++ l2) (logSize l1 + k) = decodeRowAt l2 k := by
  induction l1 with
  | nil => intro l2 k; simp [logSize]
  | cons rec rest ih =>
    intro l2 k
    have hpos := recSize_pos rec
    rw [List.cons_append, decodeRowAt, logSize_cons]
    rw [if_neg (by omega), if_neg (by omega)]
    have h3 : recSize rec + logSize rest + k - recSize rec = logSize rest + k := by omega
    rw [h3, ih]

theorem mem_tableKeyOffsets_decode (log : List Record) (t : String) (ci : Nat)
    (key : String) :
    ∀ b off, off ∈ tableKeyOffsets log t ci key b →
      b ≤ off ∧ ∃ r, decodeRowAt log (off - b) = some (t, r) ∧ keyMatch ci key r = true := by
  induction log with
  | nil => intro b off h; simp [tableKeyOffsets] at h
  | cons rec rest ih =>
    intro b off h
    rw [tableKeyOffsets] at h
    rcases List.mem_append.1 h with h1 | h2
    · cases rec with
      | schemaRec sch => simp [rowKeyContribution] at h1
      | rowRec t2 r =>
        by_cases ht : t2 = t
        · subst ht
          by_cases hk : keyMatch ci key r = true
          · simp [rowKeyContribution, hk] at h1
            subst h1
            refine ⟨Nat.le_refl _, r, ?_, hk⟩
            rw [Nat.sub_self, decodeRowAt, if_pos rfl]
            rfl
          · simp [rowKeyContribution, hk] at h1
        · simp [rowKeyContribution, ht] at h1
    · obtain ⟨hle, r, hdec, hkm⟩ := ih (b + recSize rec) off h2
      have hpos := recSize_pos rec
      refine ⟨by omega, r, ?_, hkm⟩
      rw [decodeRowAt, if_neg (by omega), if_neg (by omega)]
      have heq : off - b - recSize rec = off - (b + recSize rec) := by omega
      rw [heq]
      exact hdec

theorem readRows_tableKeyOffsets (t : String) (ci : Nat) (key : String) :
    ∀ (l2 l1 : List Record),
      readRows (l1 ++ l2) (tableKeyOffsets l2 t ci key (logSize l1)) =
        .ok ((scanLog l2 t).filter (keyMatch ci key)) := by
  intro l2
  induction l2 with
  | nil => intro l1; simp [tableKeyOffsets, scanLog, readRows]
  | cons rec rest ih =>
    intro l1
    have hstep : l1 ++ rec :: rest = (l1 ++ [rec]) ++ rest := by simp
    have hsize : logSize (l1 ++ [rec]) = logSize l1 + recSize rec := by
      rw [logSize_append]; simp [logSize]
    have htail := ih (l1 ++ [rec])
    rw [hsize] at htail
    rw [← hstep] at htail
    rw [tableKeyOffsets]
    cases rec with
    | schemaRec sch =>
      simp only [rowKeyContribution, List.nil_append]
      rw [htail, scanLog]
    | rowRec t2 r =>
      have hhead : decodeRowAt (l1 ++ Record.rowRec t2 r :: rest) (logSize l1) =
          some (t2, r) := by
        have h0 := decodeRowAt_append l1 (Record.rowRec t2 r :: rest) 0
        rw [Nat.add_zero] at h0
        rw [h0, decodeRowAt, if_pos rfl]
        rfl
      by_cases ht : t2 = t
      · have hscan : scanLog (Record.rowRec t2 r :: rest) t = r :: scanLog rest t := by
          rw [scanLog, if_pos ht]
        by_cases hk : keyMatch ci key r = true
        · have hcontrib : rowKeyContribution t ci key (logSize l1) (Record.rowRec t2 r) =
              [logSize l1] := by
            simp [rowKeyContribution, ht, hk]
          have hread : read_row_at_offset (l1 ++ Record.rowRec t2 r :: rest) (logSize l1) =
              .ok r := by
            simp only [read_row_at_offset, hhead]
          rw [hcontrib, List.singleton_append]
          simp only [readRows, hread, htail]
          rw [hscan, List.filter_cons_of_pos hk]
        · have hk2 : keyMatch ci key r = false := by simpa using hk
          have hcontrib : rowKeyContribution t ci key (logSize l1) (Record.rowRec t2 r) =
              [] := by
            simp [rowKeyContribution, ht, hk2]
          rw [hcontrib, List.nil_append, htail, hscan,
            List.filter_cons_of_neg (by simp [hk2])]
      · have hscan : scanLog (Record.rowRec t2 r :: rest) t = scanLog rest t := by
          rw [scanLog, if_neg ht]
        have hcontrib : rowKeyContribution t ci key (logSize l1) (Record.rowRec t2 r) =
            [] := by
          simp [rowKeyContribution, ht]
        rw [hcontrib, List.nil_append, htail, hscan]

/-! ### Index-construction lemmas -/

theorem idxD_insert (idx : Index) (v : Value) (off : Nat) (key : String) :
    idxD (idx.insert v off) key =
      idxD idx key ++ (if v.to_string = key then [off] else []) := by
  by_cases h : v.to_string = key <;>
    simp [idxD, Index.insert, alookup_mapPush, h]

theorem Index.insert_column_index (idx : Index) (v : Value) (off : Nat) :
    (idx.insert v off).column_index = idx.column_index := rfl

theorem buildIndex_column_index (log : List Record) :
    ∀ (t : String) (ci off : Nat) (idx : Index),
      (buildIndex log t ci off idx).column_index = idx.column_index := by
  induction log with
  | nil => intro t ci off idx; rfl
  | cons rec rest ih =>
    intro t ci off idx
    cases rec with
    | schemaRec sch => rw [buildIndex]; exact ih t ci (off + recSize (.schemaRec sch)) idx
    | rowRec t2 r =>
      rw [buildIndex]
      by_cases ht : t2 = t
      · cases hv : r.get ci with
        | none => simp only [ht, if_true, hv]; exact ih ..
        | some v =>
          simp only [ht, if_true, hv]
          rw [ih]
          exact Index.insert_column_index ..
      · simp only [ht, if_false]
        exact ih ..

theorem buildIndex_idxD (log : List Record) :
    ∀ (t : String) (ci off : Nat) (idx : Index) (key : String),
      idxD (buildIndex log t ci off idx) key =
        idxD idx key ++ tableKeyOffsets log t ci key off := by
  induction log with
  | nil => intro t ci off idx key; simp [buildIndex, tableKeyOffsets]
  | cons rec rest ih =>
    intro t ci off idx key
    cases rec with
    | schemaRec sch =>
      rw [buildIndex, tableKeyOffsets, ih]
      simp [rowKeyContribution]
    | rowRec t2 r =>
      rw [buildIndex, tableKeyOffsets]
      by_cases ht : t2 = t
      · cases hv : r.get ci with
        | none =>
          rw [ih]
          simp [rowKeyContribution, keyMatch, ht, hv]
        | some v =>
          rw [ih]
          by_cases hk : v.to_string = key <;>
            simp [rowKeyContribution, keyMatch, idxD_insert, ht, hv, hk]
      · rw [ih]
        simp [rowKeyContribution, ht]

/-! ### Invariant preservation -/

theorem lookupIndex_updateIndexes (indexes : List (String × List (String × Index)))
    (t : String) (sch : TableSchema) (row : Row) (off : Nat) (t2 c : String) :
    (alookup (updateIndexes indexes t sch row off) t2).bind (fun m => alookup m c) =
      if t = t2 then
        ((alookup indexes t2).bind (fun m => alookup m c)).map (indexUpdateFun sch row off c)
      else (alookup indexes t2).bind (fun m => alookup m c) := by
  unfold updateIndexes
  cases halo : alookup indexes t with
  | none =>
    by_cases ht2 : t = t2
    · subst ht2; rw [halo]; simp
    · simp [ht2]
  | some m =>
    rw [alookup_ainsert]
    by_cases ht2 : t = t2
    · subst ht2
      rw [if_pos rfl, if_pos rfl, halo]
      simp only [Option.some_bind]
      unfold updateTableIndexes
      rw [alookup_map_snd m (indexUpdateFun sch row off) c]
    · rw [if_neg ht2, if_neg ht2]

theorem lookupIndex_indexesInsert (indexes : List (String × List (String × Index)))
    (t c : String) (idx : Index) (t2 c2 : String) :
    (alookup (indexesInsert indexes t c idx) t2).bind (fun m => alookup m c2) =
      if t = t2 ∧ c = c2 then some idx
      else (alookup indexes t2).bind (fun m => alookup m c2) := by
  unfold indexesInsert
  rw [alookup_ainsert]
  by_cases ht2 : t = t2
  · rw [if_pos ht2]
    simp only [Option.some_bind]
    rw [alookup_ainsert]
    by_cases hc2 : c = c2
    · rw [if_pos hc2, if_pos ⟨ht2, hc2⟩]
    · rw [if_neg hc2, if_neg (fun hh => hc2 hh.2)]
      subst ht2
      cases halo : alookup indexes t <;> simp [alookup]
  · rw [if_neg ht2, if_neg (fun hh => ht2 hh.1)]

theorem idxD_new (t c : String) (ci : Nat) (key : String) :
    idxD (Index.new t c ci) key = [] := by
  simp [idxD, Index.new, alookup]

theorem Inv_init : Inv Storage.init := by
  constructor
  · rfl
  · intro t r hmem; simp [Storage.init] at hmem
  · intro t c idx hli; simp [lookupIndex, Storage.init, alookup] at hli

theorem Inv_create_table (s : Storage) (schema : TableSchema) (ioOk : Bool) :
    Inv s → Inv (create_table s schema ioOk).2 := by
  intro hInv
  cases hct : create_table s schema ioOk with
  | mk res s' =>
    show Inv s'
    cases res with
    | error e =>
      rcases create_table_error_elim s schema ioOk e s' hct with h | ⟨hfresh, hlog, hidx, hoff, htab⟩
      · rw [h]; exact hInv
      · constructor
        · rw [hoff, hlog]; exact hInv.offset_eq
        · intro t r hmem
          rw [hlog] at hmem
          obtain ⟨sch, n, hl, hv⟩ := hInv.rows_valid t r hmem
          have hne : ¬ schema.name = t := fun hh => by
            rw [hh] at hfresh; rw [hfresh] at hl; cases hl
          rw [htab, alookup_ainsert, if_neg hne]
          exact ⟨sch, n, hl, hv⟩
        · intro t c idx hli
          rw [lookupIndex, hidx] at hli
          obtain ⟨sch, n, hl, hg, hk⟩ := hInv.idx_ok t c idx hli
          have hne : ¬ schema.name = t := fun hh => by
            rw [hh] at hfresh; rw [hfresh] at hl; cases hl
          rw [htab, alookup_ainsert, if_neg hne, hlog]
          exact ⟨sch, n, hl, hg, hk⟩
    | ok u =>
      cases u
      obtain ⟨hfresh, hio, hs'⟩ := create_table_ok_elim s schema ioOk s' hct
      subst hs'
      constructor
      · simp only
        rw [hInv.offset_eq, logSize_append]
        simp [logSize]
      · intro t r hmem
        simp only at hmem ⊢
        rcases List.mem_append.1 hmem with hm | hm
        · obtain ⟨sch, n, hl, hv⟩ := hInv.rows_valid t r hm
          have hne : ¬ schema.name = t := fun hh => by
            rw [hh] at hfresh; rw [hfresh] at hl; cases hl
          rw [alookup_ainsert, if_neg hne]
          exact ⟨sch, n, hl, hv⟩
        · simp at hm
      · intro t c idx hli
        simp only [lookupIndex] at hli
        obtain ⟨sch, n, hl, hg, hk⟩ := hInv.idx_ok t c idx hli
        have hne : ¬ schema.name = t := fun hh => by
          rw [hh] at hfresh; rw [hfresh] at hl; cases hl
        refine ⟨sch, n, ?_, hg, ?_⟩
        · simp only
          rw [alookup_ainsert, if_neg hne]
          exact hl
        · intro key
          simp only
          rw [tableKeyOffsets_append, tableKeyOffsets_schemaRec, List.append_nil]
          exact hk key

theorem Inv_insert (s : Storage) (t : String) (row : Row) (ioOk : Bool) :
    Inv s → Inv (insert s t row ioOk).2 := by
  intro hInv
  cases hins : insert s t row ioOk with
  | mk res s' =>
    show Inv s'
    cases res with
    | error e => rw [insert_error_state s t row ioOk e s' hins]; exact hInv
    | ok off =>
      obtain ⟨sch, n, hlook, hval, hio, hoff, hs'⟩ := insert_ok_elim s t row ioOk off s' hins
      subst hs'
      have hlen := validate_row_ok_length sch row hval
      constructor
      · simp only
        rw [hInv.offset_eq, logSize_append]
        simp [logSize]
      · intro t2 r2 hmem
        simp only at hmem ⊢
        rcases List.mem_append.1 hmem with hm | hm
        · obtain ⟨sch2, n2, hl2, hv2⟩ := hInv.rows_valid t2 r2 hm
          by_cases ht2 : t = t2
          · subst ht2
            have hpair : (sch2, n2) = (sch, n) := Option.some.inj (hl2.symm.trans hlook)
            have hsch : sch2 = sch := congrArg Prod.fst hpair
            rw [alookup_ainsert, if_pos rfl]
            refine ⟨sch, n + 1, rfl, ?_⟩
            rw [← hsch]
            exact hv2
          · rw [alookup_ainsert, if_neg ht2]
            exact ⟨sch2, n2, hl2, hv2⟩
        · simp only [List.mem_singleton, Record.rowRec.injEq] at hm
          obtain ⟨ht2, hr2⟩ := hm
          subst ht2; subst hr2
          rw [alookup_ainsert, if_pos rfl]
          exact ⟨sch, n + 1, rfl, hval⟩
      · intro t2 c idx hli
        simp only [lookupIndex] at hli
        rw [lookupIndex_updateIndexes] at hli
        by_cases ht2 : t = t2
        · rw [if_pos ht2] at hli
          subst ht2
          obtain ⟨idx0, hidx0, hfidx⟩ := Option.map_eq_some'.1 hli
          obtain ⟨sch2, n2, hl2, hg2, hk2⟩ := hInv.idx_ok t c idx0 hidx0
          have hpair : (sch2, n2) = (sch, n) := Option.some.inj (hl2.symm.trans hlook)
          have hsch : sch2 = sch := congrArg Prod.fst hpair
          rw [hsch] at hg2
          have hcilt := get_column_index_lt sch c idx0.column_index hg2
          have hget : ∃ v, row.get idx0.column_index = some v := by
            rw [Row.get]
            have hlt : idx0.column_index < row.values.length := by rw [hlen]; exact hcilt
            exact ⟨row.values.get ⟨_, hlt⟩, List.get?_eq_get hlt⟩
          obtain ⟨v, hv⟩ := hget
          have hfidx2 : idx = idx0.insert v s.current_offset := by
            rw [← hfidx]
            unfold indexUpdateFun
            simp only [hg2, hv]
          refine ⟨sch, n + 1, ?_, ?_, ?_⟩
          · simp only
            rw [alookup_ainsert, if_pos rfl]
          · rw [hfidx2, Index.insert_column_index]
            exact hg2
          · intro key
            simp only
            rw [hfidx2, Index.insert_column_index, idxD_insert, hk2 key,
              tableKeyOffsets_append]
            congr 1
            rw [hInv.offset_eq]
            by_cases hk : v.to_string = key <;>
              simp [tableKeyOffsets, rowKeyContribution, keyMatch, hv, hk]
        · rw [if_neg ht2] at hli
          obtain ⟨sch2, n2, hl2, hg2, hk2⟩ := hInv.idx_ok t2 c idx hli
          refine ⟨sch2, n2, ?_, hg2, ?_⟩
          · simp only
            rw [alookup_ainsert, if_neg ht2]
            exact hl2
          · intro key
            simp only
            rw [tableKeyOffsets_append, hk2 key]
            simp [tableKeyOffsets, rowKeyContribution, ht2]

theorem Inv_create_index (s : Storage) (t c : String) :
    Inv s → Inv (create_index s t c).2 := by
  intro hInv
  cases hcix : create_index s t c with
  | mk res s' =>
    show Inv s'
    cases res with
    | error e => rw [create_index_error_state s t c e s' hcix]; exact hInv
    | ok u =>
      cases u
      obtain ⟨sch, n, ci, hlook, hg, hs'⟩ := create_index_ok_elim s t c s' hcix
      subst hs'
      constructor
      · exact hInv.offset_eq
      · intro t2 r2 hmem
        exact hInv.rows_valid t2 r2 hmem
      · intro t2 c2 idx hli
        simp only [lookupIndex] at hli
        rw [lookupIndex_indexesInsert] at hli
        by_cases hcase : t = t2 ∧ c = c2
        · rw [if_pos hcase] at hli
          obtain ⟨ht2, hc2⟩ := hcase
          subst ht2; subst hc2
          have hidx : idx = buildIndex s.log t ci 0 (Index.new t c ci) :=
            (Option.some.inj hli).symm
          refine ⟨sch, n, hlook, ?_, ?_⟩
          · rw [hidx, buildIndex_column_index]
            exact hg
          · intro key
            rw [hidx, buildIndex_idxD, idxD_new, List.nil_append, buildIndex_column_index]
            rfl
        · rw [if_neg hcase] at hli
          exact hInv.idx_ok t2 c2 idx hli

theorem Inv_stepOp (s : Storage) (op : Op) : Inv s → Inv (stepOp s op) := by
  intro hInv
  cases op with
  | createTableOp schema ioOk => exact Inv_create_table s schema ioOk hInv
  | insertOp t row ioOk => exact Inv_insert s t row ioOk hInv
  | createIndexOp t c => exact Inv_create_index s t c hInv
  | scanOp t => exact hInv
  | lookupOp t c v => exact hInv

theorem Inv_foldl (ops : List Op) : ∀ s, Inv s → Inv (ops.foldl stepOp s) := by
  induction ops with
  | nil => intro s h; exact h
  | cons op rest ih => intro s h; exact ih (stepOp s op) (Inv_stepOp s op h)

theorem Inv_runOps (ops : List Op) : Inv (runOps ops) :=
  Inv_foldl ops Storage.init Inv_init

set_option maxRecDepth 8000 in
set_option maxHeartbeats 1000000 in
/-- Claim C5, evaluated at the failing input (the claim is right about the
intent — the source's own header says "Append-only log file" and the spec
requires appends at end-of-file — but the code is wrong): the data file is
opened without append mode and `write_row` writes at the shared cursor
without seeking, while `read_row_at_offset` leaves that cursor one reader
buffer past the offset it reads.  On `overwriteOps`, the ninth row is
physically written at byte offset 8248 and the insert performed after the
index lookup writes its record AT THE SAME OFFSET 8248 (the write
positions are neither strictly increasing nor unused), while the index
records the new row under the stale tracked offset 9272 — the old
end-of-file, where no record was ever written, so no `0xAA` marker byte
begins there and `read_row_at_offset` there would fail at end-of-file. -/
theorem C5_cursor_bug_offset_reuse_and_dangling_index :
    (runPhysOps overwriteOps).writes.get? 9 =
      some (8248, .rowRec "users" ⟨[.integer 9, .text longNote]⟩) ∧
    (runPhysOps overwriteOps).writes.get? 10 =
      some (8248, .rowRec "users" ⟨[.integer 999, .text longNote]⟩) ∧
    (lookupIndex (runPhysOps overwriteOps).base "users" "id").bind
      (fun idx => idx.lookup (.integer 999)) = some [9272] ∧
    (runPhysOps overwriteOps).file_size = 9272 ∧
    ((runPhysOps overwriteOps).writes.map Prod.fst).contains 9272 = false :=
  ⟨rfl, rfl, rfl, rfl, rfl⟩

/-- Claim C1 amended: over any reachable state, for a table with an index
on column `c` and an equality predicate `c = v` with `v` a literal, the
index-lookup access path and the scan-plus-filter access path return the
same row sequence PROVIDED no stored value in the indexed column shares
`v`'s canonical string key without being structurally equal to `v`.  (The
unqualified claim, asserting agreement even across canonical-key
collisions, is refuted by `C1_counterexample_lossy_key_collision`.) -/
theorem C1_amended_index_path_equals_scan_path (ops : List Op) (t c : String)
    (idx : Index) (litv : SqlLit) (v : Value) :
    lookupIndex (runOps ops) t c = some idx →
    sql_value_to_value litv = .ok v →
    (∀ r ∈ scanLog (runOps ops).log t,
      ((r.get idx.column_index).getD .null).to_string = v.to_string →
      (r.get idx.column_index).getD .null = v) →
    execute_where (runOps ops) t (.binaryOp (.ident c) .eq (.lit litv)) =
      scanFilter (runOps ops) t (.binaryOp (.ident c) .eq (.lit litv)) := by
  intro hli hlit hnc
  have hInv := Inv_runOps ops
  obtain ⟨sch, n, htab, hg, hk⟩ := hInv.idx_ok t c idx hli
  have hev : expr_to_value (SqlExpr.lit litv) = .ok v := by
    rw [expr_to_value]; exact hlit
  rw [execute_where]
  simp only [hev]
  cases hkey : idx.lookup v with
  | none =>
    have hil : index_lookup (runOps ops) t c v = .error .notFound := by
      rw [index_lookup]
      simp only [hli, Option.some_bind, hkey]
    simp only [hil]
  | some offs =>
    have hoffs : offs = idxD idx v.to_string := by
      rw [Index.lookup] at hkey
      rw [idxD, hkey]
      rfl
    have hrr := readRows_tableKeyOffsets t idx.column_index v.to_string (runOps ops).log []
    simp only [List.nil_append, logSize_nil] at hrr
    have hil : index_lookup (runOps ops) t c v =
        .ok ((scanLog (runOps ops).log t).filter (keyMatch idx.column_index v.to_string)) := by
      rw [index_lookup]
      simp only [hli, Option.some_bind, hkey]
      rw [hoffs, hk v.to_string]
      exact hrr
    simp only [hil]
    rw [scanFilter]
    simp only [htab]
    have hfe : ∀ r ∈ scanLog (runOps ops).log t,
        keyMatch idx.column_index v.to_string r =
          evaluate_expr (.binaryOp (.ident c) .eq (.lit litv)) r sch := by
      intro r hr
      obtain ⟨sch2, n2, hl2, hv2⟩ :=
        hInv.rows_valid t r (mem_of_mem_scanLog (runOps ops).log t r hr)
      have hsch : sch2 = sch :=
        congrArg Prod.fst (Option.some.inj (hl2.symm.trans htab))
      rw [hsch] at hv2
      have hlen := validate_row_ok_length sch r hv2
      have hcilt := get_column_index_lt sch c idx.column_index hg
      have hget : ∃ v2, r.get idx.column_index = some v2 := by
        rw [Row.get]
        have hlt : idx.column_index < r.values.length := by rw [hlen]; exact hcilt
        exact ⟨r.values.get ⟨_, hlt⟩, List.get?_eq_get hlt⟩
      obtain ⟨v2, hv⟩ := hget
      have he1 : eval_expr_to_value (.ident c) r sch = v2 := by
        simp only [eval_expr_to_value, hg, hv, Option.getD_some]
      have he2 : eval_expr_to_value (.lit litv) r sch = v := by
        simp only [eval_expr_to_value, hlit]
      have heval : evaluate_expr (.binaryOp (.ident c) .eq (.lit litv)) r sch =
          decide (v2 = v) := by
        rw [evaluate_expr, he1, he2]
      rw [heval]
      have hkm : keyMatch idx.column_index v.to_string r =
          decide (v2.to_string = v.to_string) := by
        simp only [keyMatch, hv]
      rw [hkm]
      by_cases hvv : v2 = v
      · subst hvv; simp
      · have hts : ¬ v2.to_string = v.to_string := by
          intro hts
          have hcond := hnc r hr
          rw [hv, Option.getD_some] at hcond
          exact hvv (hcond hts)
        simp [hvv, hts]
    rw [List.filter_congr hfe]

/-- Claim C1 amended witness: in the integer-column scenario (no
canonical-key collisions), the query `id = 500` returns the same rows by
index lookup and by scan-plus-filter. -/
theorem C1_amended_witness :
    execute_where (runOps idOps) "users" (.binaryOp (.ident "id") .eq (.lit (.intLit 500))) =
      scanFilter (runOps idOps) "users" (.binaryOp (.ident "id") .eq (.lit (.intLit 500))) :=
  C1_amended_index_path_equals_scan_path idOps "users" "id"
    ⟨"users", "id", 0, [("500", [40])]⟩ (.intLit 500) (.integer 500) rfl rfl
    (by decide)

end RustiDB
